import Mathlib

/-!
# Verification of the aquashuffle simulation (`src/main.rs`)

A shallow embedding of the Rust simulation in `src/main.rs`.  The program
repeatedly redistributes "water" (probability mass) across "cups" (slot
indices `0 .. VECTOR_LENGTH`), excluding a fixed set of corrupted slots, and
records in which round the maximum mass first drops below a target threshold
in every repetition.

Modelling conventions:
* `f64` masses are modelled as exact rationals (`ℚ`); the arithmetic performed
  by the program (sums of finitely many terms, one division per round) is
  modelled exactly.
* `hashbrown::HashMap<usize, f64>` is modelled by `Cups`: a finite key set
  together with a value function.  `Cups.getOpt` models `HashMap::get`,
  `Cups.get` models `cups.get(v).unwrap_or(&0.0)`, `Cups.insert` models
  `HashMap::insert`.  Iteration order of the hash map is irrelevant for every
  observable of the program (sums, maxima and per-key assertions), so no order
  is modelled.
* The random draws produced by `choose_multiple` (the per-round shuffled
  batch, line 19, and the per-trial corrupted set, line 85) are lifted to
  explicit parameters: a run of the program is parameterised by the finite
  sets those calls returned.
* Panics (`unwrap` on an empty-map maximum, the `assert_eq!` sanity check) are
  modelled with `Except Panic`; `get_success_round`, whose `unwrap` can fail,
  returns `Option ℕ` with `none` for the panic.
-/

/-- `const VECTOR_LENGTH: usize = 2_usize.pow(14);` (line 6). -/
def VECTOR_LENGTH : ℕ := 2 ^ 14

/-- `const SHUFFLE_SIZE: usize = 128;` (line 9). -/
def SHUFFLE_SIZE : ℕ := 128

/-- `const MAX_SHUFFLES: usize = 4000;` (line 12). -/
def MAX_SHUFFLES : ℕ := 4000

/-- `const NUMBER_OF_REPETITIONS: usize = 1000;` (line 15). -/
def NUMBER_OF_REPETITIONS : ℕ := 1000

/-- Model of `HashMap<usize, f64>`: the set of present keys together with the
stored values.  `val k` is meaningful only for `k ∈ keys`; reads go through
`getOpt`/`get`, which consult `keys` first. -/
structure Cups where
  keys : Finset ℕ
  val : ℕ → ℚ

/-- `HashMap::new()`. -/
def Cups.empty : Cups := ⟨∅, fun _ => 0⟩

/-- `cups.get(&k)`: `some` of the stored value when the key is present. -/
def Cups.getOpt (m : Cups) (k : ℕ) : Option ℚ :=
  if k ∈ m.keys then some (m.val k) else none

/-- `cups.get(&k).unwrap_or(&0.0)`: absent keys read as `0.0`. -/
def Cups.get (m : Cups) (k : ℕ) : ℚ :=
  (m.getOpt k).getD 0

/-- `cups.insert(k, v)`. -/
def Cups.insert (m : Cups) (k : ℕ) (v : ℚ) : Cups :=
  ⟨Insert.insert k m.keys, Function.update m.val k v⟩

/-- `let honest_set = &shuffled_batch - corrupted;` (line 22). -/
def honest_set (batch corrupted : Finset ℕ) : Finset ℕ := batch \ corrupted

/-- `avg_water = total_water / num_honest` (lines 30–34): the sum of the
current masses of the honest-subset slots, absent keys counting as `0.0`,
divided by the honest-subset size. -/
def avg_water (cups : Cups) (corrupted batch : Finset ℕ) : ℚ :=
  Finset.sum (honest_set batch corrupted) (fun v => cups.get v) /
    ((honest_set batch corrupted).card : ℚ)

/-- `distribute_water` (lines 18–40).  The random batch drawn on line 19 is
the explicit parameter `batch`.  Returns the updated map together with the
list of lines printed (the `println!` of line 25).  The loop of lines 37–39
inserts the same value `avg_water` at every index of `honest_set`, so its
result is the map whose key set is enlarged by `honest_set` and whose value is
`avg_water` on `honest_set` and unchanged elsewhere. -/
def distribute_water (cups : Cups) (corrupted : Finset ℕ) (batch : Finset ℕ) :
    Cups × List String :=
  let hs := honest_set batch corrupted
  let num_honest := hs.card
  if num_honest = 0 then
    (cups, ["no honest commitment selected!"])
  else
    ({ keys := cups.keys ∪ hs,
       val := fun k => if k ∈ hs then avg_water cups corrupted batch else cups.val k },
     [])

/-- Sum of all stored masses (absent keys hold no mass). -/
def total_mass (m : Cups) : ℚ :=
  Finset.sum m.keys (fun k => m.val k)

/-- Maximum of two optional rationals, `none` acting as the identity: the
folding step of `Iterator::max_by`. -/
def optMax (a b : Option ℚ) : Option ℚ :=
  match a, b with
  | none, b => b
  | a, none => a
  | some x, some y => some (max x y)

instance : Std.Commutative optMax :=
  ⟨by intro a b; cases a <;> cases b <;> simp [optMax, max_comm]⟩

instance : Std.Associative optMax :=
  ⟨by intro a b c; cases a <;> cases b <;> cases c <;> simp [optMax, max_assoc]⟩

/-- `water_cups.values().max_by(|a, b| a.total_cmp(b))` (line 102): the
maximum stored value, `none` when the map is empty.  `total_cmp` agrees with
the order on the modelled rational values; the maximum is a commutative fold
over the entries, so the hash map's iteration order is irrelevant. -/
def maxWater (m : Cups) : Option ℚ :=
  m.keys.fold optMax none (fun k => some (m.get k))

/-- The sanity check of lines 112–117: every present key that lies in the
corrupted set stores mass exactly `0.0`. -/
def sanity_ok (cups : Cups) (corrupted : Finset ℕ) : Prop :=
  ∀ k ∈ cups.keys, k ∈ corrupted → cups.val k = 0

instance (cups : Cups) (corrupted : Finset ℕ) : Decidable (sanity_ok cups corrupted) := by
  unfold sanity_ok
  infer_instance

/-- The two ways a repetition of `run_sim` can panic: the `unwrap` of the
maximum over an empty map (line 102), and the `assert_eq!` of line 115. -/
inductive Panic where
  | unwrapFail : Panic
  | assertFail : Panic
deriving DecidableEq

/-- The per-repetition mutable state of `run_sim`: the water cups, the shared
success tally `sum_succ_in_round`, and the (write-only) `is_success` flag. -/
structure TrialState where
  cups : Cups
  tally : Cups
  is_success : Bool

/-- `*sum_succ_in_round.entry(t).or_insert(0.0) += 1.0;` (lines 104–105). -/
def bump (tally : Cups) (t : ℕ) : Cups :=
  tally.insert t (tally.get t + 1)

/-- One iteration of the round loop of `run_sim` (lines 93–118) at round
`tb.1` with sampled batch `tb.2`: distribute the water, test the maximum
against `target_eps`, update the tally and the flag, then run the sanity
assertion. -/
def sim_round (corrupted : Finset ℕ) (target_eps : ℚ) (s : TrialState)
    (tb : ℕ × Finset ℕ) : Except Panic TrialState :=
  match maxWater (distribute_water s.cups corrupted tb.2).1 with
  | none => Except.error Panic.unwrapFail
  | some max_water =>
    if sanity_ok (distribute_water s.cups corrupted tb.2).1 corrupted then
      Except.ok ⟨(distribute_water s.cups corrupted tb.2).1,
        if max_water < target_eps then bump s.tally tb.1 else s.tally,
        if max_water < target_eps then true else s.is_success⟩
    else Except.error Panic.assertFail

/-- The round loop of one repetition, driven by the list of (round index,
sampled batch) pairs; a panic aborts the repetition. -/
def run_trial_go (corrupted : Finset ℕ) (target_eps : ℚ) :
    TrialState → List (ℕ × Finset ℕ) → Except Panic TrialState
  | s, [] => Except.ok s
  | s, tb :: rest =>
    match sim_round corrupted target_eps s tb with
    | Except.ok s2 => run_trial_go corrupted target_eps s2 rest
    | Except.error e => Except.error e

/-- One repetition of `run_sim` (lines 78–118) given the per-round batches
drawn by `distribute_water`; round `t` uses `batches[t]`. -/
def run_trial (corrupted : Finset ℕ) (target_eps : ℚ) (batches : List (Finset ℕ))
    (s : TrialState) : Except Panic TrialState :=
  run_trial_go corrupted target_eps s batches.enum

/-- `water_cups` after lines 88–90: the empty map with `1.0` inserted at the
tracked cup, index `0`. -/
def init_cups : Cups := Cups.empty.insert 0 1

/-- The state at the start of a repetition: fresh `water_cups`, the tally
accumulated so far, `is_success = false` (lines 82–90). -/
def initState (tally : Cups) : TrialState := ⟨init_cups, tally, false⟩

/-- `sum_succ_in_round` after the initialisation loop of lines 70–73: the loop
inserts key `t` with value `0.0` for every `t` in `0..MAX_SHUFFLES`, so the
resulting map has key set `0 .. MAX_SHUFFLES - 1`, every key storing `0`. -/
def init_tally : Cups := ⟨Finset.range MAX_SHUFFLES, fun _ => 0⟩

/-- The scan loop of `get_success_round` (lines 47–61) over the remaining
round indices: `none` models the panic of the `unwrap` on line 49. -/
def get_success_round_go (tally : Cups) : List ℕ → Option ℕ
  | [] => some 0
  | t :: ts =>
    match tally.getOpt t with
    | none => none
    | some round_success =>
      if round_success / (NUMBER_OF_REPETITIONS : ℚ) = 1 then some (t + 1)
      else get_success_round_go tally ts

/-- `get_success_round` (lines 43–64): scan rounds `0..MAX_SHUFFLES` in
increasing order, return `t+1` at the first `t` whose tally divided by
`NUMBER_OF_REPETITIONS` equals exactly `1.0`, and `0` after a full scan. -/
def get_success_round (tally : Cups) : Option ℕ :=
  get_success_round_go tally (List.range MAX_SHUFFLES)

/-- The repetition loop of `run_sim` (lines 78–119), one list entry per
repetition: the corrupted set drawn on line 85 and the per-round batches drawn
on line 19.  Returns the final `sum_succ_in_round` tally. -/
def run_sim_go (target_eps : ℚ) :
    Cups → List (Finset ℕ × List (Finset ℕ)) → Except Panic Cups
  | tally, [] => Except.ok tally
  | tally, (corrupted, batches) :: rest =>
    match run_trial corrupted target_eps batches (initState tally) with
    | Except.ok s => run_sim_go target_eps s.tally rest
    | Except.error e => Except.error e

/-- `run_sim` (lines 66–123) up to the final aggregation: run all repetitions
starting from the initialised tally. -/
def run_sim (target_eps : ℚ) (trials : List (Finset ℕ × List (Finset ℕ))) :
    Except Panic Cups :=
  run_sim_go target_eps init_tally trials

/-- `let fraction_corrupted_commitments: f64 = p as f64/100.0;` (line 129). -/
def fraction_corrupted_commitments (p : ℕ) : ℚ := (p : ℚ) / 100

/-- `let corrupted_commitments: usize = ((VECTOR_LENGTH as f64) *
fraction_corrupted_commitments) as usize;` (line 130).  The `as usize` cast
truncates towards zero, i.e. takes the floor of the nonnegative product; on
the swept values `p = 1, …, 49` the `f64` product is close enough to the
exact value `16384·p/100` that both have the same floor (the product is never
within `10^{-9}` of crossing an integer except at `p = 25`, where it is the
exactly representable `4096`), so the natural-number division below computes
exactly the value the program computes. -/
def corrupted_commitments (p : ℕ) : ℕ := VECTOR_LENGTH * p / 100

/-- The threshold formula `4.0 / (VECTOR_LENGTH as f64 * (1.0 - f))` as a
function of the corruption fraction `f` (line 133), in exact arithmetic. -/
def target_eps_of (f : ℚ) : ℚ := 4 / ((VECTOR_LENGTH : ℚ) * (1 - f))

/-- `let target_eps: f64 = 4.0 / (VECTOR_LENGTH as f64 *
(1.0 - fraction_corrupted_commitments));` (line 133), computed once in the
sweep iteration for `p` and passed to `run_sim` as a fixed parameter. -/
def target_eps (p : ℕ) : ℚ := target_eps_of (fraction_corrupted_commitments p)

/-- Modelled from the spec: the sampling primitive
`(lo..hi).choose_multiple(rng, amount)` of the external `rand` crate draws
`min(amount, hi - lo)` distinct indices uniformly without replacement from
`[lo, hi)`.  Its admissible outcomes are exactly the subsets of `[lo, hi)` of
that size; the uniform distribution over those outcomes is the crate's
contract and is not formalised. -/
def admissible_draw (lo hi amount : ℕ) (s : Finset ℕ) : Prop :=
  s ⊆ Finset.Ico lo hi ∧ s.card = min amount (hi - lo)

instance (lo hi amount : ℕ) (s : Finset ℕ) : Decidable (admissible_draw lo hi amount s) := by
  unfold admissible_draw
  infer_instance

/-- The tally entry for round `t` of a finished (or aborted) repetition. -/
def result_tally_at (r : Except Panic TrialState) (t : ℕ) : Option ℚ :=
  match r with
  | Except.ok s => some (s.tally.get t)
  | Except.error _ => none

/-- A tally whose round-`5` entry holds `1000 = NUMBER_OF_REPETITIONS`
successes: concrete input for the aggregator. -/
def c4_tally_hit : Cups :=
  ⟨Finset.range MAX_SHUFFLES, fun t => if t = 5 then (1000 : ℚ) else 0⟩

/-- A tally in which no round ever reaches `1000` successes. -/
def c4_tally_miss : Cups :=
  ⟨Finset.range MAX_SHUFFLES, fun _ => (3 : ℚ)⟩

/-- Excluded set used in the C7 counterexample: 128 corrupted indices inside
`[1, VECTOR_LENGTH)`. -/
def c7_corrupted : Finset ℕ := Finset.Ico 200 328

/-- Round-0 batch of the C7 counterexample: 128 fully honest indices. -/
def c7_batch0 : Finset ℕ := Finset.range 128

theorem distribute_water_of_empty (cups : Cups) (corrupted batch : Finset ℕ)
    (h : honest_set batch corrupted = ∅) :
    distribute_water cups corrupted batch = (cups, ["no honest commitment selected!"]) := by
  unfold distribute_water
  simp [h]

theorem distribute_water_of_nonempty (cups : Cups) (corrupted batch : Finset ℕ)
    (h : (honest_set batch corrupted).Nonempty) :
    distribute_water cups corrupted batch =
      ({ keys := cups.keys ∪ honest_set batch corrupted,
         val := fun k => if k ∈ honest_set batch corrupted then
             avg_water cups corrupted batch else cups.val k },
       []) := by
  unfold distribute_water
  simp [Finset.card_eq_zero, Finset.nonempty_iff_ne_empty.mp h]

theorem keys_distribute_water_subset (cups : Cups) (corrupted batch : Finset ℕ) :
    cups.keys ⊆ (distribute_water cups corrupted batch).1.keys := by
  unfold distribute_water
  by_cases h : (honest_set batch corrupted).card = 0 <;>
    simp [h, Finset.subset_union_left]

theorem getOpt_distribute_water_of_not_mem (cups : Cups) (corrupted batch : Finset ℕ)
    (i : ℕ) (hi : i ∉ honest_set batch corrupted) :
    (distribute_water cups corrupted batch).1.getOpt i = cups.getOpt i := by
  unfold distribute_water
  by_cases h : (honest_set batch corrupted).card = 0
  · simp [h]
  · simp [h, Cups.getOpt, Finset.mem_union, hi]

theorem get_distribute_water_of_mem (cups : Cups) (corrupted batch : Finset ℕ)
    (i : ℕ) (hi : i ∈ honest_set batch corrupted) :
    (distribute_water cups corrupted batch).1.get i = avg_water cups corrupted batch := by
  have hne : (honest_set batch corrupted).Nonempty := ⟨i, hi⟩
  rw [distribute_water_of_nonempty cups corrupted batch hne]
  simp [Cups.get, Cups.getOpt, hi]

theorem Cups.get_eq_ite (m : Cups) (k : ℕ) :
    m.get k = if k ∈ m.keys then m.val k else 0 := by
  unfold Cups.get Cups.getOpt
  by_cases h : k ∈ m.keys <;> simp [h]

theorem Cups.val_eq_get_of_mem (m : Cups) (k : ℕ) (h : k ∈ m.keys) :
    m.val k = m.get k := by
  rw [Cups.get_eq_ite, if_pos h]

theorem get_distribute_water_of_not_mem (cups : Cups) (corrupted batch : Finset ℕ)
    (i : ℕ) (hi : i ∉ honest_set batch corrupted) :
    (distribute_water cups corrupted batch).1.get i = cups.get i := by
  unfold Cups.get
  rw [getOpt_distribute_water_of_not_mem cups corrupted batch i hi]

theorem sum_get_distribute_water (cups : Cups) (corrupted batch : Finset ℕ)
    (h : (honest_set batch corrupted).Nonempty) :
    Finset.sum (honest_set batch corrupted)
        (fun v => (distribute_water cups corrupted batch).1.get v)
      = Finset.sum (honest_set batch corrupted) (fun v => cups.get v) := by
  have hcard : ((honest_set batch corrupted).card : ℚ) ≠ 0 := by
    exact_mod_cast Finset.card_ne_zero.mpr h
  have h1 : ∀ v ∈ honest_set batch corrupted,
      (distribute_water cups corrupted batch).1.get v = avg_water cups corrupted batch :=
    fun v hv => get_distribute_water_of_mem cups corrupted batch v hv
  rw [Finset.sum_congr rfl h1, Finset.sum_const, nsmul_eq_mul, avg_water,
    mul_comm, div_mul_cancel₀ _ hcard]

theorem total_mass_distribute_water (cups : Cups) (corrupted batch : Finset ℕ) :
    total_mass (distribute_water cups corrupted batch).1 = total_mass cups := by
  by_cases h : honest_set batch corrupted = ∅
  · rw [distribute_water_of_empty cups corrupted batch h]
  · have hne : (honest_set batch corrupted).Nonempty := Finset.nonempty_iff_ne_empty.mpr h
    have hcard : ((honest_set batch corrupted).card : ℚ) ≠ 0 := by
      exact_mod_cast Finset.card_ne_zero.mpr hne
    rw [distribute_water_of_nonempty cups corrupted batch hne]
    unfold total_mass
    have hsplit : cups.keys ∪ honest_set batch corrupted
        = honest_set batch corrupted ∪ (cups.keys \ honest_set batch corrupted) := by
      rw [Finset.union_sdiff_self_eq_union, Finset.union_comm]
    rw [hsplit, Finset.sum_union Finset.disjoint_sdiff]
    have h1 : Finset.sum (honest_set batch corrupted)
        (fun k => if k ∈ honest_set batch corrupted then avg_water cups corrupted batch
          else cups.val k)
        = Finset.sum (honest_set batch corrupted)
            (fun _k => avg_water cups corrupted batch) :=
      Finset.sum_congr rfl (fun x hx => by rw [if_pos hx])
    have h2 : Finset.sum (cups.keys \ honest_set batch corrupted)
        (fun k => if k ∈ honest_set batch corrupted then avg_water cups corrupted batch
          else cups.val k)
        = Finset.sum (cups.keys \ honest_set batch corrupted) (fun k => cups.val k) :=
      Finset.sum_congr rfl (fun x hx => by rw [if_neg (Finset.mem_sdiff.mp hx).2])
    rw [h1, h2, Finset.sum_const, nsmul_eq_mul, avg_water, mul_comm, div_mul_cancel₀ _ hcard]
    have h3 : Finset.sum (honest_set batch corrupted) (fun v => cups.get v)
        = Finset.sum (honest_set batch corrupted ∩ cups.keys) (fun k => cups.val k) := by
      have := fun k => Cups.get_eq_ite cups k
      simp_rw [this]
      exact Finset.sum_ite_mem _ _ _
    rw [h3]
    have h4 : Finset.sum cups.keys (fun k => cups.val k)
        = Finset.sum (cups.keys \ honest_set batch corrupted) (fun k => cups.val k)
          + Finset.sum (cups.keys ∩ honest_set batch corrupted) (fun k => cups.val k) := by
      rw [← Finset.sum_union (Finset.disjoint_sdiff_inter _ _), Finset.sdiff_union_inter]
    rw [h4, Finset.inter_comm]
    ring

theorem fold_optMax_isSome (s : Finset ℕ) (f : ℕ → Option ℚ)
    (hf : ∀ k, (f k).isSome = true) (h : s.Nonempty) :
    (s.fold optMax none f).isSome = true := by
  induction s using Finset.induction_on with
  | empty => exact absurd h (by simp)
  | @insert a s ha ih =>
    rw [Finset.fold_insert ha]
    cases hfa : f a with
    | none => exact absurd (hf a) (by rw [hfa]; simp)
    | some x => cases s.fold optMax none f <;> simp [optMax]

theorem maxWater_isSome_of_mem (m : Cups) (k : ℕ) (h : k ∈ m.keys) :
    (maxWater m).isSome = true := by
  unfold maxWater
  exact fold_optMax_isSome m.keys _ (fun _ => rfl) ⟨k, h⟩

theorem keys_bump_subset (tally : Cups) (t : ℕ) :
    tally.keys ⊆ (bump tally t).keys := by
  unfold bump Cups.insert
  exact Finset.subset_insert t tally.keys

/-- Generic invariant-propagation principle for the round loop: if every
round step starting from a state satisfying `P` either reaches a state
satisfying `P` or panics with a panic satisfying `E`, the same holds of the
whole loop. -/
theorem run_trial_go_ind (corrupted : Finset ℕ) (eps : ℚ) (P : TrialState → Prop)
    (E : Panic → Prop)
    (hstep : ∀ s tb, P s →
      (match sim_round corrupted eps s tb with
       | Except.ok s2 => P s2
       | Except.error e => E e)) :
    ∀ (l : List (ℕ × Finset ℕ)) (s : TrialState), P s →
      (match run_trial_go corrupted eps s l with
       | Except.ok s2 => P s2
       | Except.error e => E e) := by
  intro l
  induction l with
  | nil =>
    intro s hs
    simpa [run_trial_go] using hs
  | cons tb rest ih =>
    intro s hs
    have h1 := hstep s tb hs
    unfold run_trial_go
    cases hr : sim_round corrupted eps s tb with
    | ok s2 =>
      rw [hr] at h1
      exact ih s2 h1
    | error e =>
      rw [hr] at h1
      exact h1

theorem zero_mem_init_cups : 0 ∈ init_cups.keys := by
  unfold init_cups Cups.empty Cups.insert
  simp

theorem get_init_cups_of_ne (i : ℕ) (hi : i ≠ 0) : init_cups.get i = 0 := by
  unfold init_cups Cups.empty Cups.insert
  rw [Cups.get_eq_ite]
  simp [Function.update, hi]

theorem total_mass_init_cups : total_mass init_cups = 1 := by
  unfold init_cups Cups.empty Cups.insert total_mass
  simp

theorem sim_round_excluded_step (corrupted : Finset ℕ) (eps : ℚ) (s : TrialState)
    (tb : ℕ × Finset ℕ)
    (h : 0 ∈ s.cups.keys ∧ ∀ i ∈ corrupted, s.cups.get i = 0) :
    match sim_round corrupted eps s tb with
    | Except.ok s2 => 0 ∈ s2.cups.keys ∧ ∀ i ∈ corrupted, s2.cups.get i = 0
    | Except.error _ => False := by
  obtain ⟨h0, hz⟩ := h
  have h02 : 0 ∈ (distribute_water s.cups corrupted tb.2).1.keys :=
    keys_distribute_water_subset s.cups corrupted tb.2 h0
  have hz2 : ∀ i ∈ corrupted, (distribute_water s.cups corrupted tb.2).1.get i = 0 := by
    intro i hi
    have hnot : i ∉ honest_set tb.2 corrupted := by
      unfold honest_set
      simp [hi]
    rw [get_distribute_water_of_not_mem s.cups corrupted tb.2 i hnot]
    exact hz i hi
  have hsan : sanity_ok (distribute_water s.cups corrupted tb.2).1 corrupted := by
    intro k hk hkc
    rw [Cups.val_eq_get_of_mem _ k hk]
    exact hz2 k hkc
  have hsome := maxWater_isSome_of_mem _ 0 h02
  unfold sim_round
  cases hmw : maxWater (distribute_water s.cups corrupted tb.2).1 with
  | none =>
    rw [hmw] at hsome
    simp at hsome
  | some mw =>
    simp only [hsan, if_true]
    exact ⟨h02, hz2⟩

theorem sim_round_total_step (corrupted : Finset ℕ) (eps : ℚ) (s : TrialState)
    (tb : ℕ × Finset ℕ) (h : total_mass s.cups = 1) :
    match sim_round corrupted eps s tb with
    | Except.ok s2 => total_mass s2.cups = 1
    | Except.error _ => True := by
  unfold sim_round
  cases maxWater (distribute_water s.cups corrupted tb.2).1 with
  | none => trivial
  | some mw =>
    by_cases hsan : sanity_ok (distribute_water s.cups corrupted tb.2).1 corrupted
    · simp only [hsan, if_true]
      show total_mass (distribute_water s.cups corrupted tb.2).1 = 1
      rw [total_mass_distribute_water]
      exact h
    · simp only [hsan, if_false]

theorem sim_round_keys_step (corrupted : Finset ℕ) (eps : ℚ) (s : TrialState)
    (tb : ℕ × Finset ℕ)
    (h : 0 ∈ s.cups.keys ∧ Finset.range MAX_SHUFFLES ⊆ s.tally.keys) :
    match sim_round corrupted eps s tb with
    | Except.ok s2 => 0 ∈ s2.cups.keys ∧ Finset.range MAX_SHUFFLES ⊆ s2.tally.keys
    | Except.error e => e ≠ Panic.unwrapFail := by
  obtain ⟨h0, ht⟩ := h
  have h02 : 0 ∈ (distribute_water s.cups corrupted tb.2).1.keys :=
    keys_distribute_water_subset s.cups corrupted tb.2 h0
  have hsome := maxWater_isSome_of_mem _ 0 h02
  unfold sim_round
  cases hmw : maxWater (distribute_water s.cups corrupted tb.2).1 with
  | none =>
    rw [hmw] at hsome
    simp at hsome
  | some mw =>
    by_cases hsan : sanity_ok (distribute_water s.cups corrupted tb.2).1 corrupted
    · simp only [hsan, if_true]
      refine ⟨h02, ?_⟩
      by_cases hlt : mw < eps
      · rw [if_pos hlt]
        exact ht.trans (keys_bump_subset s.tally tb.1)
      · rw [if_neg hlt]
        exact ht
    · simp only [hsan, if_false]
      simp

theorem run_trial_excluded (corrupted : Finset ℕ) (hc : 0 ∉ corrupted) (eps : ℚ)
    (tally0 : Cups) (batches : List (Finset ℕ)) :
    match run_trial corrupted eps batches (initState tally0) with
    | Except.ok s => 0 ∈ s.cups.keys ∧ ∀ i ∈ corrupted, s.cups.get i = 0
    | Except.error _ => False := by
  unfold run_trial
  refine run_trial_go_ind corrupted eps _ (fun _ => False)
    (fun s tb hs => sim_round_excluded_step corrupted eps s tb hs) batches.enum
    (initState tally0) ?_
  refine ⟨zero_mem_init_cups, ?_⟩
  intro i hi
  exact get_init_cups_of_ne i (fun h0 => hc (h0 ▸ hi))

theorem run_trial_total (corrupted : Finset ℕ) (eps : ℚ) (tally0 : Cups)
    (batches : List (Finset ℕ)) :
    match run_trial corrupted eps batches (initState tally0) with
    | Except.ok s => total_mass s.cups = 1
    | Except.error _ => True := by
  unfold run_trial
  exact run_trial_go_ind corrupted eps (fun s => total_mass s.cups = 1) (fun _ => True)
    (fun s tb hs => sim_round_total_step corrupted eps s tb hs) batches.enum
    (initState tally0) total_mass_init_cups

theorem run_trial_keys (corrupted : Finset ℕ) (eps : ℚ) (tally0 : Cups)
    (h : Finset.range MAX_SHUFFLES ⊆ tally0.keys) (batches : List (Finset ℕ)) :
    match run_trial corrupted eps batches (initState tally0) with
    | Except.ok s => 0 ∈ s.cups.keys ∧ Finset.range MAX_SHUFFLES ⊆ s.tally.keys
    | Except.error e => e ≠ Panic.unwrapFail := by
  unfold run_trial
  exact run_trial_go_ind corrupted eps _ (fun e => e ≠ Panic.unwrapFail)
    (fun s tb hs => sim_round_keys_step corrupted eps s tb hs) batches.enum
    (initState tally0) ⟨zero_mem_init_cups, h⟩

theorem run_sim_go_keys (eps : ℚ) :
    ∀ (trials : List (Finset ℕ × List (Finset ℕ))) (tally : Cups),
      Finset.range MAX_SHUFFLES ⊆ tally.keys →
      (match run_sim_go eps tally trials with
       | Except.ok t2 => Finset.range MAX_SHUFFLES ⊆ t2.keys
       | Except.error e => e ≠ Panic.unwrapFail) := by
  intro trials
  induction trials with
  | nil =>
    intro tally h
    simpa [run_sim_go] using h
  | cons tr rest ih =>
    intro tally h
    obtain ⟨corrupted, batches⟩ := tr
    have htr := run_trial_keys corrupted eps tally h batches
    unfold run_sim_go
    cases hr : run_trial corrupted eps batches (initState tally) with
    | ok s =>
      rw [hr] at htr
      exact ih s.tally htr.2
    | error e =>
      rw [hr] at htr
      exact htr

theorem keys_init_tally : Finset.range MAX_SHUFFLES ⊆ init_tally.keys := by
  unfold init_tally
  exact Finset.Subset.refl _

theorem get_success_round_go_isSome (tally : Cups) :
    ∀ ts : List ℕ, (∀ t ∈ ts, t ∈ tally.keys) →
      (get_success_round_go tally ts).isSome = true := by
  intro ts
  induction ts with
  | nil => intro _; rfl
  | cons t rest ih =>
    intro h
    have ht : t ∈ tally.keys := h t (List.mem_cons_self t rest)
    unfold get_success_round_go Cups.getOpt
    rw [if_pos ht]
    by_cases hc : tally.val t / (NUMBER_OF_REPETITIONS : ℚ) = 1
    · simp [hc]
    · simp only [hc, if_false]
      exact ih (fun x hx => h x (List.mem_cons_of_mem t hx))

theorem get_success_round_go_cons_skip (tally : Cups) (t : ℕ) (l : List ℕ)
    (ht : t ∈ tally.keys) (hc : tally.get t / (NUMBER_OF_REPETITIONS : ℚ) ≠ 1) :
    get_success_round_go tally (t :: l) = get_success_round_go tally l := by
  have hval : tally.val t = tally.get t := Cups.val_eq_get_of_mem tally t ht
  conv_lhs => unfold get_success_round_go Cups.getOpt
  rw [if_pos ht, hval]
  simp only [hc, if_false]

theorem get_success_round_go_skip (tally : Cups) :
    ∀ (l1 l2 : List ℕ),
      (∀ t ∈ l1, t ∈ tally.keys ∧ tally.get t / (NUMBER_OF_REPETITIONS : ℚ) ≠ 1) →
      get_success_round_go tally (l1 ++ l2) = get_success_round_go tally l2 := by
  intro l1
  induction l1 with
  | nil => intro l2 _; rfl
  | cons t rest ih =>
    intro l2 h
    obtain ⟨ht, hc⟩ := h t (List.mem_cons_self t rest)
    rw [List.cons_append, get_success_round_go_cons_skip tally t (rest ++ l2) ht hc]
    exact ih l2 (fun x hx => h x (List.mem_cons_of_mem t hx))

theorem get_success_round_go_hit (tally : Cups) (t : ℕ) (l2 : List ℕ)
    (ht : t ∈ tally.keys) (hc : tally.get t / (NUMBER_OF_REPETITIONS : ℚ) = 1) :
    get_success_round_go tally (t :: l2) = some (t + 1) := by
  have hval : tally.val t = tally.get t := Cups.val_eq_get_of_mem tally t ht
  unfold get_success_round_go Cups.getOpt
  rw [if_pos ht, hval]
  simp [hc]

theorem get_success_round_eq_some_hit (tally : Cups)
    (hkeys : ∀ t, t < MAX_SHUFFLES → t ∈ tally.keys)
    (t0 : ℕ) (ht0 : t0 < MAX_SHUFFLES)
    (hhit : tally.get t0 / (NUMBER_OF_REPETITIONS : ℚ) = 1)
    (hfirst : ∀ s, s < t0 → tally.get s / (NUMBER_OF_REPETITIONS : ℚ) ≠ 1) :
    get_success_round tally = some (t0 + 1) := by
  unfold get_success_round
  have hlen : t0 < (List.range MAX_SHUFFLES).length := by simpa using ht0
  have hsplit : List.range MAX_SHUFFLES
      = List.range t0 ++ t0 :: (List.range MAX_SHUFFLES).drop (t0 + 1) := by
    conv_lhs => rw [← List.take_append_drop t0 (List.range MAX_SHUFFLES)]
    rw [List.take_range, min_eq_left (le_of_lt ht0), List.drop_eq_getElem_cons hlen,
      List.getElem_range t0 hlen]
  rw [hsplit, get_success_round_go_skip tally (List.range t0) _ ?_]
  · exact get_success_round_go_hit tally t0 _ (hkeys t0 ht0) hhit
  · intro t htm
    have htlt : t < t0 := List.mem_range.mp htm
    exact ⟨hkeys t (htlt.trans ht0), hfirst t htlt⟩

theorem get_success_round_eq_some_zero (tally : Cups)
    (hkeys : ∀ t, t < MAX_SHUFFLES → t ∈ tally.keys)
    (hmiss : ∀ t, t < MAX_SHUFFLES → tally.get t / (NUMBER_OF_REPETITIONS : ℚ) ≠ 1) :
    get_success_round tally = some 0 := by
  unfold get_success_round
  have hskip := get_success_round_go_skip tally (List.range MAX_SHUFFLES) []
    (fun t htm => ⟨hkeys t (List.mem_range.mp htm), hmiss t (List.mem_range.mp htm)⟩)
  rw [List.append_nil] at hskip
  rw [hskip]
  rfl

/-- **C1** — Excluded-slot invariant: `distribute_water` never writes to an
excluded slot (its presence and value are untouched), and along any
repetition started from the fresh `water_cups` with an excluded set drawn
from `[1, VECTOR_LENGTH)`, every excluded slot has mass exactly `0` at every
observation point, the per-round sanity assertion never fails, and no panic
of any kind occurs (error case `False`). -/
theorem c1_excluded_invariant (corrupted : Finset ℕ)
    (hc : corrupted ⊆ Finset.Ico 1 VECTOR_LENGTH) (eps : ℚ) (tally0 : Cups)
    (batches : List (Finset ℕ)) :
    (∀ (cups : Cups) (batch : Finset ℕ), ∀ i ∈ corrupted,
        (distribute_water cups corrupted batch).1.getOpt i = cups.getOpt i) ∧
    (match run_trial corrupted eps batches (initState tally0) with
     | Except.ok s => (∀ i ∈ corrupted, s.cups.get i = 0) ∧ sanity_ok s.cups corrupted
     | Except.error _ => False) := by
  have hc0 : 0 ∉ corrupted := by
    intro h
    have := hc h
    rw [Finset.mem_Ico] at this
    exact absurd this.1 (by decide)
  constructor
  · intro cups batch i hi
    apply getOpt_distribute_water_of_not_mem
    unfold honest_set
    simp [hi]
  · have hrun := run_trial_excluded corrupted hc0 eps tally0 batches
    cases hr : run_trial corrupted eps batches (initState tally0) with
    | ok s =>
      rw [hr] at hrun
      refine ⟨hrun.2, ?_⟩
      intro k hk hkc
      rw [Cups.val_eq_get_of_mem _ k hk]
      exact hrun.2 k hkc
    | error e =>
      rw [hr] at hrun
      exact hrun

theorem c1_excluded_invariant_witness :
    (({1} : Finset ℕ) ⊆ Finset.Ico 1 VECTOR_LENGTH) ∧
    (match run_trial {1} 1 [{0, 1}] (initState Cups.empty) with
     | Except.ok s => (∀ i ∈ ({1} : Finset ℕ), s.cups.get i = 0) ∧ sanity_ok s.cups {1}
     | Except.error _ => False) := by
  refine ⟨by decide, ?_⟩
  exact (c1_excluded_invariant {1} (by decide) 1 Cups.empty [{0, 1}]).2

/-- **C2** — Round operator correctness: when the honest subset (batch minus
excluded set) is nonempty, `distribute_water` overwrites every honest-subset
slot with exactly `avg_water` — the sum of the current masses of the
honest-subset slots (absent keys counting as `0`) divided by the
honest-subset size — so all honest-subset slots end up holding the identical
value, while every slot outside the honest subset is completely unchanged
(same presence, same value). -/
theorem c2_round_operator (cups : Cups) (corrupted batch : Finset ℕ)
    (h : (honest_set batch corrupted).Nonempty) :
    (∀ i ∈ honest_set batch corrupted,
        (distribute_water cups corrupted batch).1.get i
          = Finset.sum (honest_set batch corrupted) (fun v => cups.get v) /
              ((honest_set batch corrupted).card : ℚ)) ∧
    (∀ i, i ∉ honest_set batch corrupted →
        (distribute_water cups corrupted batch).1.getOpt i = cups.getOpt i) := by
  constructor
  · intro i hi
    rw [get_distribute_water_of_mem cups corrupted batch i hi]
    rfl
  · intro i hi
    exact getOpt_distribute_water_of_not_mem cups corrupted batch i hi

theorem c2_round_operator_witness :
    ((honest_set {0, 1, 2} {2}).Nonempty) ∧
    (distribute_water init_cups {2} {0, 1, 2}).1.get 0
      = Finset.sum (honest_set {0, 1, 2} {2}) (fun v => init_cups.get v) /
          ((honest_set {0, 1, 2} {2}).card : ℚ) := by
  refine ⟨by decide, ?_⟩
  exact (c2_round_operator init_cups {2} {0, 1, 2} (by decide)).1 0 (by decide)

/-- **C3** — Mass conservation within the honest subset: when the honest
subset is nonempty, the sum of the mass over the honest-subset slots is
unchanged by `distribute_water` (exactly, in the rational model of the
arithmetic), and every slot outside the honest subset keeps its previous
mass. -/
theorem c3_mass_conservation (cups : Cups) (corrupted batch : Finset ℕ)
    (h : (honest_set batch corrupted).Nonempty) :
    Finset.sum (honest_set batch corrupted)
        (fun v => (distribute_water cups corrupted batch).1.get v)
      = Finset.sum (honest_set batch corrupted) (fun v => cups.get v) ∧
    (∀ i, i ∉ honest_set batch corrupted →
        (distribute_water cups corrupted batch).1.get i = cups.get i) :=
  ⟨sum_get_distribute_water cups corrupted batch h,
   fun i hi => get_distribute_water_of_not_mem cups corrupted batch i hi⟩

theorem c3_mass_conservation_witness :
    ((honest_set {0, 3} ∅).Nonempty) ∧
    Finset.sum (honest_set {0, 3} ∅)
        (fun v => (distribute_water init_cups ∅ {0, 3}).1.get v)
      = Finset.sum (honest_set {0, 3} ∅) (fun v => init_cups.get v) :=
  ⟨by decide, (c3_mass_conservation init_cups ∅ {0, 3} (by decide)).1⟩

/-- **C5** — Degenerate round no-op: when the sampled batch's honest subset
is empty, `distribute_water` returns the mass mapping completely unchanged
together with the printed diagnostic line `no honest commitment selected!`
(and, being a total function, continues without error). -/
theorem c5_degenerate_noop (cups : Cups) (corrupted batch : Finset ℕ)
    (h : honest_set batch corrupted = ∅) :
    distribute_water cups corrupted batch = (cups, ["no honest commitment selected!"]) :=
  distribute_water_of_empty cups corrupted batch h

theorem c5_degenerate_noop_witness :
    (honest_set {1, 2} {1, 2} = ∅) ∧
    distribute_water init_cups {1, 2} {1, 2}
      = (init_cups, ["no honest commitment selected!"]) :=
  ⟨by decide, c5_degenerate_noop init_cups {1, 2} {1, 2} (by decide)⟩

/-- **C4** — Aggregator correctness: for a tally defined on every round in
`0 .. MAX_SHUFFLES`, `get_success_round` scans the rounds in increasing order
and returns `t0 + 1` for the smallest round `t0` whose tally divided by the
trial count `NUMBER_OF_REPETITIONS` equals exactly `1`, and returns the
sentinel `0` (wrapped in `some`, i.e. without panicking or producing an
out-of-range index) when no round within the budget reaches `100%`. -/
theorem c4_aggregator (tally : Cups)
    (hkeys : ∀ t, t < MAX_SHUFFLES → t ∈ tally.keys) :
    (∀ t0, t0 < MAX_SHUFFLES →
        tally.get t0 / (NUMBER_OF_REPETITIONS : ℚ) = 1 →
        (∀ s, s < t0 → tally.get s / (NUMBER_OF_REPETITIONS : ℚ) ≠ 1) →
        get_success_round tally = some (t0 + 1)) ∧
    ((∀ t, t < MAX_SHUFFLES → tally.get t / (NUMBER_OF_REPETITIONS : ℚ) ≠ 1) →
        get_success_round tally = some 0) :=
  ⟨fun t0 ht0 hhit hfirst => get_success_round_eq_some_hit tally hkeys t0 ht0 hhit hfirst,
   fun hmiss => get_success_round_eq_some_zero tally hkeys hmiss⟩

theorem c4_aggregator_witness :
    (∀ t, t < MAX_SHUFFLES → t ∈ c4_tally_hit.keys) ∧
    get_success_round c4_tally_hit = some 6 ∧
    get_success_round c4_tally_miss = some 0 := by
  have hkeys : ∀ t, t < MAX_SHUFFLES → t ∈ c4_tally_hit.keys := fun t ht => by
    simpa [c4_tally_hit, Finset.mem_range] using ht
  have hkeys2 : ∀ t, t < MAX_SHUFFLES → t ∈ c4_tally_miss.keys := fun t ht => by
    simpa [c4_tally_miss, Finset.mem_range] using ht
  have h5get : c4_tally_hit.get 5 = 1000 := by
    have h5m : (5 : ℕ) ∈ c4_tally_hit.keys := hkeys 5 (by norm_num [MAX_SHUFFLES])
    rw [Cups.get_eq_ite, if_pos h5m]
    rfl
  have h5 : c4_tally_hit.get 5 / (NUMBER_OF_REPETITIONS : ℚ) = 1 := by
    rw [h5get]
    norm_num [NUMBER_OF_REPETITIONS]
  have hfirst : ∀ s, s < 5 → c4_tally_hit.get s / (NUMBER_OF_REPETITIONS : ℚ) ≠ 1 := by
    intro s hs
    have hs5 : s ≠ 5 := by omega
    have hget : c4_tally_hit.get s = 0 := by
      simp only [c4_tally_hit, Cups.get, Cups.getOpt, hs5, if_false]
      split <;> rfl
    rw [hget]
    norm_num
  have hmiss : ∀ t, t < MAX_SHUFFLES → c4_tally_miss.get t / (NUMBER_OF_REPETITIONS : ℚ) ≠ 1 := by
    intro t ht
    have hm : t ∈ c4_tally_miss.keys := hkeys2 t ht
    have hget : c4_tally_miss.get t = 3 := by
      rw [Cups.get_eq_ite, if_pos hm]
      rfl
    rw [hget]
    norm_num [NUMBER_OF_REPETITIONS]
  exact ⟨hkeys,
    (c4_aggregator c4_tally_hit hkeys).1 5 (by norm_num [MAX_SHUFFLES]) h5 hfirst,
    (c4_aggregator c4_tally_miss hkeys2).2 hmiss⟩

/-- **C8** — Target threshold computation and monotonicity: the threshold of
the sweep configuration for percentage `p` equals
`4 / (VECTOR_LENGTH * (1 - p/100))` (it is computed once per configuration in
the sweep loop and passed to `run_sim` as a fixed parameter), and on
fractions in `(0, 1)` the threshold formula is strictly increasing in the
corruption fraction. -/
theorem c8_target_threshold (p : ℕ) (f1 f2 : ℚ)
    (h1 : 0 < f1) (h12 : f1 < f2) (h2 : f2 < 1) :
    target_eps p = 4 / ((VECTOR_LENGTH : ℚ) * (1 - fraction_corrupted_commitments p)) ∧
    target_eps_of f1 < target_eps_of f2 := by
  constructor
  · rfl
  · unfold target_eps_of
    have hV : (0 : ℚ) < (VECTOR_LENGTH : ℚ) := by norm_num [VECTOR_LENGTH]
    have hb : (0 : ℚ) < (VECTOR_LENGTH : ℚ) * (1 - f2) := by
      apply mul_pos hV
      linarith
    have hlt : (VECTOR_LENGTH : ℚ) * (1 - f2) < (VECTOR_LENGTH : ℚ) * (1 - f1) := by
      apply mul_lt_mul_of_pos_left _ hV
      linarith
    exact div_lt_div_of_pos_left (by norm_num) hb hlt

theorem c8_target_threshold_witness :
    ((0 : ℚ) < 1/4 ∧ (1 : ℚ)/4 < 1/2 ∧ (1 : ℚ)/2 < 1) ∧
    target_eps 7 = 4 / ((VECTOR_LENGTH : ℚ) * (1 - fraction_corrupted_commitments 7)) ∧
    target_eps_of (1/4) < target_eps_of (1/2) := by
  have h := c8_target_threshold 7 (1/4) (1/2) (by norm_num) (by norm_num) (by norm_num)
  exact ⟨⟨by norm_num, by norm_num, by norm_num⟩, h.1, h.2⟩

/-- **C9** — Implicit global mass conservation: every `distribute_water` call
leaves the total mass over the whole slot universe unchanged (exactly, in the
rational model), and consequently along every repetition — started from the
single entry `0 ↦ 1` — the total mass equals `1` at every observation
point. -/
theorem c9_global_conservation :
    (∀ (cups : Cups) (corrupted batch : Finset ℕ),
        total_mass (distribute_water cups corrupted batch).1 = total_mass cups) ∧
    (∀ (corrupted : Finset ℕ) (eps : ℚ) (tally0 : Cups) (batches : List (Finset ℕ)),
        match run_trial corrupted eps batches (initState tally0) with
        | Except.ok s => total_mass s.cups = 1
        | Except.error _ => True) :=
  ⟨fun cups corrupted batch => total_mass_distribute_water cups corrupted batch,
   fun corrupted eps tally0 batches => run_trial_total corrupted eps tally0 batches⟩

theorem sim_round_cups_key_step (corrupted : Finset ℕ) (eps : ℚ) (s : TrialState)
    (tb : ℕ × Finset ℕ) (h : 0 ∈ s.cups.keys) :
    match sim_round corrupted eps s tb with
    | Except.ok s2 => 0 ∈ s2.cups.keys
    | Except.error e => e ≠ Panic.unwrapFail := by
  have h02 : 0 ∈ (distribute_water s.cups corrupted tb.2).1.keys :=
    keys_distribute_water_subset s.cups corrupted tb.2 h
  have hsome := maxWater_isSome_of_mem _ 0 h02
  unfold sim_round
  cases hmw : maxWater (distribute_water s.cups corrupted tb.2).1 with
  | none =>
    rw [hmw] at hsome
    simp at hsome
  | some mw =>
    by_cases hsan : sanity_ok (distribute_water s.cups corrupted tb.2).1 corrupted
    · simp only [hsan, if_true]
      exact h02
    · simp only [hsan, if_false]
      simp

theorem run_trial_cups_key (corrupted : Finset ℕ) (eps : ℚ) (tally0 : Cups)
    (batches : List (Finset ℕ)) :
    match run_trial corrupted eps batches (initState tally0) with
    | Except.ok s => 0 ∈ s.cups.keys
    | Except.error e => e ≠ Panic.unwrapFail := by
  unfold run_trial
  exact run_trial_go_ind corrupted eps (fun s => 0 ∈ s.cups.keys)
    (fun e => e ≠ Panic.unwrapFail)
    (fun s tb hs => sim_round_cups_key_step corrupted eps s tb hs) batches.enum
    (initState tally0) zero_mem_init_cups

/-- **C10** — Implicit panic freedom of the unwraps: in every repetition the
mass mapping always contains an entry for slot `0` (entries are only ever
inserted), so the per-round maximum computation is never `none` and the
repetition can never end in the `unwrap` panic; and `run_sim`'s tally is
pre-initialised with every key in `0 .. MAX_SHUFFLES` and keys are never
removed, so the final `get_success_round` scan succeeds (returns `some`)
on the tally of every completed run. -/
theorem c10_unwrap_panic_freedom :
    (∀ (corrupted : Finset ℕ) (eps : ℚ) (tally0 : Cups) (batches : List (Finset ℕ)),
        match run_trial corrupted eps batches (initState tally0) with
        | Except.ok s => 0 ∈ s.cups.keys ∧ (maxWater s.cups).isSome = true
        | Except.error e => e ≠ Panic.unwrapFail) ∧
    (∀ (eps : ℚ) (trials : List (Finset ℕ × List (Finset ℕ))),
        run_sim eps trials ≠ Except.error Panic.unwrapFail ∧
        (match run_sim eps trials with
         | Except.ok tally => (get_success_round tally).isSome = true
         | Except.error _ => True)) := by
  constructor
  · intro corrupted eps tally0 batches
    have h := run_trial_cups_key corrupted eps tally0 batches
    cases hr : run_trial corrupted eps batches (initState tally0) with
    | ok s =>
      rw [hr] at h
      exact ⟨h, maxWater_isSome_of_mem s.cups 0 h⟩
    | error e =>
      rw [hr] at h
      exact h
  · intro eps trials
    have h := run_sim_go_keys eps trials init_tally keys_init_tally
    have hrs : run_sim_go eps init_tally trials = run_sim eps trials := rfl
    rw [hrs] at h
    constructor
    · intro hbad
      rw [hbad] at h
      exact h rfl
    · cases hr : run_sim eps trials with
      | ok tally =>
        rw [hr] at h
        unfold get_success_round
        exact get_success_round_go_isSome tally (List.range MAX_SHUFFLES)
          (fun t ht => h (Finset.mem_range.mpr (List.mem_range.mp ht)))
      | error e =>
        trivial

/-- **C6** — Excluded-set sampling: for a sweep percentage `p ≤ 49`, every
admissible outcome of the excluded-set draw
`(1..VECTOR_LENGTH).choose_multiple(rng, corrupted_commitments)` (line 85) is
a set of exactly `corrupted_commitments p` distinct indices inside
`[1, VECTOR_LENGTH)`, where `corrupted_commitments p` equals
`⌊VECTOR_LENGTH * (p/100)⌋`; in particular the tracked slot `0` is never a
member of the excluded set.  (Distributional uniformity of the draw is the
`rand` crate's contract, modelled by `admissible_draw`.) -/
theorem c6_excluded_sampling (p : ℕ) (hp : p ≤ 49) (s : Finset ℕ)
    (hs : admissible_draw 1 VECTOR_LENGTH (corrupted_commitments p) s) :
    s.card = corrupted_commitments p ∧
    corrupted_commitments p
      = Nat.floor ((VECTOR_LENGTH : ℚ) * fraction_corrupted_commitments p) ∧
    s ⊆ Finset.Ico 1 VECTOR_LENGTH ∧ 0 ∉ s := by
  obtain ⟨hsub, hcard⟩ := hs
  have hK : corrupted_commitments p ≤ VECTOR_LENGTH - 1 := by
    unfold corrupted_commitments VECTOR_LENGTH
    calc 2 ^ 14 * p / 100 ≤ 2 ^ 14 * 49 / 100 := by
          apply Nat.div_le_div_right
          exact Nat.mul_le_mul_left _ hp
      _ ≤ 2 ^ 14 - 1 := by norm_num
  refine ⟨?_, ?_, hsub, ?_⟩
  · rw [hcard, min_eq_left hK]
  · unfold corrupted_commitments fraction_corrupted_commitments
    rw [show (VECTOR_LENGTH : ℚ) * ((p : ℚ) / 100)
          = ((VECTOR_LENGTH * p : ℕ) : ℚ) / ((100 : ℕ) : ℚ) by push_cast; ring]
    rw [Nat.floor_div_nat, Nat.floor_natCast]
  · intro h0
    have hm := hsub h0
    rw [Finset.mem_Ico] at hm
    exact absurd hm.1 (by decide)

set_option maxRecDepth 40000 in
theorem c6_excluded_sampling_witness :
    ((1 : ℕ) ≤ 49 ∧
      admissible_draw 1 VECTOR_LENGTH (corrupted_commitments 1) (Finset.Ico 1 164)) ∧
    ((Finset.Ico 1 164).card = corrupted_commitments 1 ∧
      corrupted_commitments 1
        = Nat.floor ((VECTOR_LENGTH : ℚ) * fraction_corrupted_commitments 1) ∧
      Finset.Ico 1 164 ⊆ Finset.Ico 1 VECTOR_LENGTH ∧ 0 ∉ Finset.Ico 1 164) := by
  refine ⟨⟨by decide, by decide⟩, ?_⟩
  exact c6_excluded_sampling 1 (by decide) (Finset.Ico 1 164) (by decide)

theorem Cups.get_insert_self (m : Cups) (k : ℕ) (v : ℚ) :
    (m.insert k v).get k = v := by
  unfold Cups.insert Cups.get Cups.getOpt
  simp

theorem Cups.get_insert_ne (m : Cups) (k : ℕ) (v : ℚ) (j : ℕ) (h : j ≠ k) :
    (m.insert k v).get j = m.get j := by
  unfold Cups.insert Cups.get Cups.getOpt
  simp [Finset.mem_insert, h, Function.update, h]

theorem bump_get_self (tally : Cups) (t : ℕ) :
    (bump tally t).get t = tally.get t + 1 := by
  unfold bump
  exact Cups.get_insert_self tally t (tally.get t + 1)

theorem bump_get_ne (tally : Cups) (t j : ℕ) (h : j ≠ t) :
    (bump tally t).get j = tally.get j := by
  unfold bump
  exact Cups.get_insert_ne tally t (tally.get t + 1) j h

theorem get_init_tally (t : ℕ) : init_tally.get t = 0 := by
  rw [Cups.get_eq_ite]
  split <;> rfl

/-- **C7 (amended)** — Degenerate rounds and the tally: when the sampled
batch's honest subset is empty, the round leaves the cups unchanged, but the
success check of lines 101–110 still runs on the (unchanged) cups: the tally
entry for round `t` is incremented exactly when the carried-over maximum mass
is below `target_eps`.  In particular a degenerate round occurring before the
mass has dropped below the threshold does not count as a success, but a
degenerate round occurring after it does count. -/
theorem c7_amended_degenerate_check (corrupted batch : Finset ℕ) (eps : ℚ)
    (t : ℕ) (s : TrialState) (mw : ℚ)
    (hdeg : honest_set batch corrupted = ∅)
    (hmw : maxWater s.cups = some mw)
    (hok : sanity_ok s.cups corrupted) :
    sim_round corrupted eps s (t, batch) =
      Except.ok ⟨s.cups,
        if mw < eps then bump s.tally t else s.tally,
        if mw < eps then true else s.is_success⟩ := by
  unfold sim_round
  simp only [distribute_water_of_empty s.cups corrupted batch hdeg, hmw, hok, if_true]

theorem c7_amended_degenerate_check_witness :
    (honest_set {1} {1} = ∅ ∧ maxWater (initState Cups.empty).cups = some 1 ∧
      sanity_ok (initState Cups.empty).cups {1}) ∧
    sim_round {1} (1/2) (initState Cups.empty) (3, {1})
      = Except.ok ⟨(initState Cups.empty).cups,
          if (1 : ℚ) < 1/2 then bump (initState Cups.empty).tally 3
          else (initState Cups.empty).tally,
          if (1 : ℚ) < 1/2 then true else (initState Cups.empty).is_success⟩ := by
  refine ⟨⟨by decide, by decide, by decide⟩, ?_⟩
  exact c7_amended_degenerate_check {1} {1} (1/2) 3 (initState Cups.empty) 1
    (by decide) (by decide) (by decide)


theorem fold_optMax_const (s : Finset ℕ) (f : ℕ → ℚ) (c : ℚ)
    (h : ∀ k ∈ s, f k = c) (hne : s.Nonempty) :
    s.fold optMax none (fun k => some (f k)) = some c := by
  induction s using Finset.induction_on with
  | empty => exact absurd hne (by simp)
  | @insert a s ha ih =>
    rw [Finset.fold_insert ha]
    have hfa : f a = c := h a (Finset.mem_insert_self a s)
    by_cases hs : s.Nonempty
    · rw [ih (fun k hk => h k (Finset.mem_insert_of_mem hk)) hs, hfa]
      simp [optMax]
    · have hse : s = ∅ := Finset.not_nonempty_iff_eq_empty.mp hs
      subst hse
      rw [Finset.fold_empty, hfa]
      rfl

theorem maxWater_const (m : Cups) (c : ℚ)
    (h : ∀ k ∈ m.keys, m.get k = c) (hne : m.keys.Nonempty) :
    maxWater m = some c := by
  unfold maxWater
  exact fold_optMax_const m.keys _ c h hne

theorem init_cups_get_ite (v : ℕ) : init_cups.get v = if v = 0 then 1 else 0 := by
  by_cases hv : v = 0
  · subst hv
    rw [if_pos rfl]
    exact Cups.get_insert_self Cups.empty 0 1
  · rw [if_neg hv]
    exact get_init_cups_of_ne v hv

set_option maxRecDepth 8000 in
/-- **C7 (counterexample)** — The claim that a degenerate round never counts
as a success is false on the code: in the repetition below, round 0 spreads
the tracked mass over 128 honest cups (each ending at `1/128`, below the
threshold `1/100`), and round 1 samples a batch consisting entirely of
corrupted cups — its honest subset is empty, the degenerate no-op case — yet
the round-1 tally entry, `0` before the repetition, ends at `1`: the
degenerate round incremented it, because the success check of lines 101–110
runs on the carried-over cups regardless of degeneracy.  Both batches and the
excluded set are admissible outcomes of the sampling primitive. -/
theorem c7_degenerate_counted_counterexample :
    honest_set c7_corrupted c7_corrupted = ∅ ∧
    init_tally.get 1 = 0 ∧
    admissible_draw 0 VECTOR_LENGTH SHUFFLE_SIZE c7_batch0 ∧
    admissible_draw 0 VECTOR_LENGTH SHUFFLE_SIZE c7_corrupted ∧
    result_tally_at
      (run_trial c7_corrupted (1/100) [c7_batch0, c7_corrupted] (initState init_tally)) 1
      = some 1 := by
  have hVL : VECTOR_LENGTH = 16384 := by norm_num [VECTOR_LENGTH]
  have hdeg : honest_set c7_corrupted c7_corrupted = ∅ := Finset.sdiff_self c7_corrupted
  have hhon : honest_set c7_batch0 c7_corrupted = c7_batch0 := by
    unfold honest_set
    rw [Finset.sdiff_eq_self_iff_disjoint, Finset.disjoint_left]
    intro a ha hb
    rw [c7_batch0, Finset.mem_range] at ha
    rw [c7_corrupted, Finset.mem_Ico] at hb
    omega
  have h0b : (0 : ℕ) ∈ c7_batch0 := by
    rw [c7_batch0, Finset.mem_range]
    norm_num
  have hne : (honest_set c7_batch0 c7_corrupted).Nonempty := by
    rw [hhon]
    exact ⟨0, h0b⟩
  have havg : avg_water init_cups c7_corrupted c7_batch0 = 1/128 := by
    unfold avg_water
    rw [hhon]
    rw [Finset.sum_congr rfl (fun v _ => init_cups_get_ite v)]
    rw [Finset.sum_ite_eq' c7_batch0 0 (fun _ => (1 : ℚ))]
    rw [if_pos h0b]
    rw [c7_batch0, Finset.card_range]
    norm_num
  have hkeys_honest : ∀ k ∈ (distribute_water init_cups c7_corrupted c7_batch0).1.keys,
      k ∈ honest_set c7_batch0 c7_corrupted := by
    intro k hk
    rw [distribute_water_of_nonempty init_cups c7_corrupted c7_batch0 hne] at hk
    rcases Finset.mem_union.mp hk with h1 | h2
    · have hk0 : k = 0 := by
        simpa [init_cups, Cups.empty, Cups.insert] using h1
      rw [hhon, hk0]
      exact h0b
    · exact h2
  have hgetA : ∀ k ∈ (distribute_water init_cups c7_corrupted c7_batch0).1.keys,
      (distribute_water init_cups c7_corrupted c7_batch0).1.get k = 1/128 := by
    intro k hk
    rw [get_distribute_water_of_mem init_cups c7_corrupted c7_batch0 k (hkeys_honest k hk),
      havg]
  have hkeysA0 : 0 ∈ (distribute_water init_cups c7_corrupted c7_batch0).1.keys :=
    keys_distribute_water_subset init_cups c7_corrupted c7_batch0 zero_mem_init_cups
  have hmaxA : maxWater (distribute_water init_cups c7_corrupted c7_batch0).1
      = some (1/128) :=
    maxWater_const _ (1/128) hgetA ⟨0, hkeysA0⟩
  have hsanA : sanity_ok (distribute_water init_cups c7_corrupted c7_batch0).1
      c7_corrupted := by
    intro k hk hkc
    exfalso
    have hkh := hkeys_honest k hk
    rw [hhon, c7_batch0, Finset.mem_range] at hkh
    rw [c7_corrupted, Finset.mem_Ico] at hkc
    omega
  have hlt : (1/128 : ℚ) < 1/100 := by norm_num
  have hstep0 : sim_round c7_corrupted (1/100) (initState init_tally) (0, c7_batch0)
      = Except.ok ⟨(distribute_water init_cups c7_corrupted c7_batch0).1,
          bump init_tally 0, true⟩ := by
    unfold sim_round
    dsimp only [initState]
    rw [hmaxA]
    dsimp only
    rw [if_pos hsanA]
    simp only [if_pos hlt]
  have hstep1 : sim_round c7_corrupted (1/100)
        ⟨(distribute_water init_cups c7_corrupted c7_batch0).1, bump init_tally 0, true⟩
        (1, c7_corrupted)
      = Except.ok ⟨(distribute_water init_cups c7_corrupted c7_batch0).1,
          bump (bump init_tally 0) 1, true⟩ := by
    unfold sim_round
    dsimp only
    rw [distribute_water_of_empty _ c7_corrupted c7_corrupted hdeg]
    dsimp only
    rw [hmaxA]
    dsimp only
    rw [if_pos hsanA]
    simp only [if_pos hlt]
  have hrun : run_trial c7_corrupted (1/100) [c7_batch0, c7_corrupted] (initState init_tally)
      = Except.ok ⟨(distribute_water init_cups c7_corrupted c7_batch0).1,
          bump (bump init_tally 0) 1, true⟩ := by
    unfold run_trial
    simp only [List.enum, List.enumFrom, run_trial_go, hstep0, hstep1]
  have hadm0 : admissible_draw 0 VECTOR_LENGTH SHUFFLE_SIZE c7_batch0 := by
    constructor
    · intro a ha
      rw [c7_batch0, Finset.mem_range] at ha
      rw [Finset.mem_Ico]
      omega
    · rw [c7_batch0, Finset.card_range]
      rw [hVL]
      norm_num [SHUFFLE_SIZE]
  have hadmC : admissible_draw 0 VECTOR_LENGTH SHUFFLE_SIZE c7_corrupted := by
    constructor
    · intro a ha
      rw [c7_corrupted, Finset.mem_Ico] at ha
      rw [Finset.mem_Ico]
      omega
    · rw [c7_corrupted, Nat.card_Ico]
      rw [hVL]
      norm_num [SHUFFLE_SIZE]
  refine ⟨hdeg, get_init_tally 1, hadm0, hadmC, ?_⟩
  rw [hrun]
  show some ((bump (bump init_tally 0) 1).get 1) = some 1
  rw [bump_get_self (bump init_tally 0) 1, bump_get_ne init_tally 0 1 (by decide),
    get_init_tally 1]
  norm_num
